import Mathlib

/-!
Shallow embedding of `src/IntSet.cpp` (class `IntSet`): a set of distinct
`int` values kept in insertion order inside a dynamically allocated array
`data` of size `capacity`, with the first `used` slots holding the valid
elements.

Modelling conventions:
* `int` element values are modelled as `Int` (the claims never exercise
  fixed-width overflow of element values).
* The backing array `data` is a `List Int` whose length is exactly the
  allocation size; in the C++ the member `capacity` always equals the size
  of the allocation (every assignment to `capacity` is immediately followed
  by `new int[capacity]`), so `capacity` is modelled as `data.length`.
* Freshly allocated slots (`new int[n]`) hold indeterminate values in C++;
  the model fills them with `0`.  Slots that become stale by other means
  (e.g. the tail slot left behind by `remove`'s left shift) keep their true
  values, because the model tracks the whole buffer.
* Out-of-bounds accesses are undefined behaviour in C++; operations whose
  loops can step outside the allocation return `Option` and yield `none`
  exactly when such an access would occur.
* `DEFAULT_CAPACITY` is declared in `IntSet.h`, which is not part of the
  sources; every definition that needs it takes it as an explicit first
  argument `DC`.  Modelled from the spec: the spec only requires a fixed
  positive default capacity ("never allocate zero-sized storage").
-/

namespace IntSetCpp

/-- The state of an `IntSet` object: the full backing buffer (one entry per
allocated slot, so `data.length` is the C++ `capacity` member) and the
count `used` of valid elements at the front. -/
structure IntSet where
  data : List Int
  used : Nat
deriving DecidableEq, Repr

/-- The C++ `capacity` member: always equal to the allocation size. -/
def IntSet.capacity (s : IntSet) : Nat := s.data.length

/-- The valid elements, in storage order: slots `[0, used)` of the buffer. -/
def IntSet.elems (s : IntSet) : List Int := s.data.take s.used

/-- Consistency of the count with the allocation: `used <= capacity`.
Every state the C++ code can reach satisfies this. -/
def Wf (s : IntSet) : Prop := s.used ≤ s.data.length

instance (s : IntSet) : Decidable (Wf s) := by
  unfold Wf; infer_instance

/-- `IntSet::IntSet(int initial_capacity)` (src lines 102-111): start from
the user hint, replace it by `DEFAULT_CAPACITY` (`DC`) when `<= 0`, allocate
`new int[capacity]`, `used = 0`. -/
def mkIntSet (DC : Nat) (initial_capacity : Int) : IntSet :=
  let cap : Nat := if initial_capacity ≤ 0 then DC else initial_capacity.toNat
  { data := List.replicate cap 0, used := 0 }

/-- `IntSet::IntSet(const IntSet&)` (src lines 113-121): copies `capacity`,
`used`, and every one of the `capacity` slots of `src.data` (the loop bound
is `capacity`, not `used`). -/
def copyCtor (src : IntSet) : IntSet :=
  { data := src.data, used := src.used }

/-- `IntSet::operator=` (src lines 130-156): allocates `rhs.capacity` slots
but copies only the first `rhs.used` of them; the rest are fresh
(indeterminate, modelled `0`). -/
def assign (rhs : IntSet) : IntSet :=
  { data := rhs.data.take rhs.used ++ List.replicate (rhs.capacity - rhs.used) 0
    used := rhs.used }

/-- `IntSet::size` (src lines 158-163). -/
def size (s : IntSet) : Nat := s.used

/-- `IntSet::isEmpty` (src lines 165-169). -/
def isEmpty (s : IntSet) : Bool := s.used == 0

/-- `IntSet::contains` (src lines 171-180): scan `data[index]` for
`index < used` (the `used > 0` guard is subsumed by the empty scan). -/
def contains (s : IntSet) (anInt : Int) : Bool :=
  (List.range s.used).any (fun index => s.data.getD index 0 == anInt)

/-- `IntSet::isSubsetOf` (src lines 182-201): `true` when empty, otherwise
every `data[index]`, `index < used`, must be contained in `other`. -/
def isSubsetOf (s other : IntSet) : Bool :=
  if s.used == 0 then true
  else (List.range s.used).all (fun index => contains other (s.data.getD index 0))

/-- `IntSet::DumpData` (src lines 203-211): the valid elements in order,
separated by two spaces. -/
def dumpData (s : IntSet) : String :=
  if 0 < s.used then
    (List.range (s.used - 1)).foldl
      (fun acc i => acc ++ "  " ++ toString (s.data.getD (i + 1) 0))
      (toString (s.data.getD 0 0))
  else ""

/-- The capacity resolution of `IntSet::resize` (src lines 83-85):
`<= 0` falls back to `DEFAULT_CAPACITY`; below `used` clamps to `used`;
otherwise the request is taken as is. -/
def resolveCapacity (DC : Nat) (used : Nat) (new_capacity : Int) : Nat :=
  if new_capacity ≤ 0 then DC
  else if new_capacity < (used : Int) then used
  else new_capacity.toNat

/-- `IntSet::resize` (src lines 79-100): resolve the capacity, allocate,
copy the `used` valid slots, install the new buffer.  The copy loop writes
`new_data[index]` and reads `data[index]` for `index < used`; when
`used` exceeds the new capacity or the old allocation this is an
out-of-bounds access (undefined behaviour), modelled as `none`. -/
def resize (DC : Nat) (s : IntSet) (new_capacity : Int) : Option IntSet :=
  let cap := resolveCapacity DC s.used new_capacity
  if s.used ≤ cap ∧ s.used ≤ s.data.length then
    some { data := s.data.take s.used ++ List.replicate (cap - s.used) 0
           used := s.used }
  else none

/-- The growth expression `int(capacity * 1.5) + 1` of `IntSet::add`
(src line 275).  The `double` multiplication is exact: `1.5` is a dyadic
rational and `3 * capacity < 2^53` for every `int` capacity, so
`int(capacity * 1.5)` is exactly `floor(3 * capacity / 2)`. -/
def growCap (capacity : Nat) : Nat := 3 * capacity / 2 + 1

/-- `IntSet::add` (src lines 266-285): if absent, resize when
`used >= capacity`, then write `data[used]`, increment `used`, return
`true`; if present return `false`.  The write `data[used] = anInt` must be
inside the allocation, otherwise `none` (undefined behaviour). -/
def add (DC : Nat) (s : IntSet) (anInt : Int) : Option (IntSet × Bool) :=
  if contains s anInt then some (s, false)
  else
    match (if s.capacity ≤ s.used then resize DC s (growCap s.capacity) else some s) with
    | none => none
    | some s1 =>
        if s1.used < s1.data.length then
          some ({ data := s1.data.set s1.used anInt, used := s1.used + 1 }, true)
        else none

/-- The scan of `IntSet::remove`'s outer loop (src lines 292-293): the
first `index < used` with `data[index] == anInt`. -/
def firstIdxOf (s : IntSet) (anInt : Int) : Option Nat :=
  (List.range s.used).find? (fun index => s.data.getD index 0 == anInt)

/-- `IntSet::remove` (src lines 287-303): if present, locate the first
matching `index`, shift `data[index2] = data[index2 + 1]` for
`index <= index2 < used - 1` (slots at `used - 1` and beyond keep their
old values), decrement `used`, return `true`. -/
def remove (s : IntSet) (anInt : Int) : IntSet × Bool :=
  if contains s anInt then
    match firstIdxOf s anInt with
    | some index =>
        ({ data := s.data.take index
                    ++ (s.data.drop (index + 1)).take (s.used - 1 - index)
                    ++ s.data.drop (s.used - 1)
           used := s.used - 1 }, true)
    | none => (s, false)
  else (s, false)

/-- `IntSet::reset` (src lines 260-264): `used = 0`, buffer untouched. -/
def reset (s : IntSet) : IntSet := { s with used := 0 }

/-- `IntSet::unionWith` (src lines 213-227): start from a copy of the
invoking set; for each `otherIntSet.data[index]`, `index < otherIntSet.size()`,
add it when the accumulator does not contain it. -/
def unionWith (DC : Nat) (s other : IntSet) : Option IntSet :=
  (List.range other.used).foldl
    (fun acc? index =>
      acc?.bind (fun acc =>
        let x := other.data.getD index 0
        if contains acc x then some acc
        else (add DC acc x).map Prod.fst))
    (some (copyCtor s))

/-- `IntSet::intersect` (src lines 229-243): start from a copy of the
invoking set; for `index < otherIntSet.size()` read `data[index]` FROM THE
INVOKING SET and remove it from the copy when `other` does not contain it.
The loop bound is the OTHER set's size, so when `other.used` exceeds the
invoking allocation the read `data[index]` is out of bounds (undefined
behaviour, modelled `none`); reads between `used` and `capacity` hit stale
slots, which the model tracks faithfully. -/
def intersect (s other : IntSet) : Option IntSet :=
  if other.used ≤ s.data.length then
    some ((List.range other.used).foldl
      (fun acc index =>
        let x := s.data.getD index 0
        if contains other x then acc else (remove acc x).1)
      (copyCtor s))
  else none

/-- `IntSet::subtract` (src lines 245-258): start from a copy of the
invoking set; for each `otherIntSet.data[index]`, `index < otherIntSet.size()`,
remove it from the copy when the copy contains it. -/
def subtract (s other : IntSet) : IntSet :=
  (List.range other.used).foldl
    (fun acc index =>
      let x := other.data.getD index 0
      if contains acc x then (remove acc x).1 else acc)
    (copyCtor s)

/-- `operator==` (src lines 305-316): `true` when both empty, else `true`
when each is a subset of the other, else `false`. -/
def intSetEq (is1 is2 : IntSet) : Bool :=
  if isEmpty is1 && isEmpty is2 then true
  else if isSubsetOf is1 is2 && isSubsetOf is2 is1 then true
  else false

/-- Read footprint of `IntSet::intersect` on the INVOKING set's buffer
(src lines 237-239): the loop evaluates `data[index]` for every
`index < otherIntSet.size()`, so the examined positions are governed by the
other set's count, not the invoking set's. -/
def intersectInvokingReads (otherIntSet : IntSet) : List Nat :=
  List.range otherIntSet.used

/-- Read footprint of the copy constructor on `src.data`
(src lines 119-120): the loop bound is `capacity`, so every allocated slot
of the source is read, stale ones included. -/
def copyCtorReads (src : IntSet) : List Nat :=
  List.range src.capacity

/-- Read footprint of `IntSet::contains` on `data` (src lines 175-178):
the loop examines `index < used` and returns at the first match, so it
reads positions `0..k` for the first hit `k`, or all of `[0, used)`. -/
def containsReads (s : IntSet) (anInt : Int) : List Nat :=
  match firstIdxOf s anInt with
  | some k => List.range (k + 1)
  | none => List.range s.used

/-- Read footprint of `IntSet::isSubsetOf` on the invoking buffer
(src lines 195-198): the loop examines `data[index]` for `index < used`,
returning at the first element that `other` does not contain. -/
def isSubsetOfInvokingReads (s other : IntSet) : List Nat :=
  match (List.range s.used).find?
      (fun index => !(contains other (s.data.getD index 0))) with
  | some k => List.range (k + 1)
  | none => List.range s.used

/-- Read footprint of `IntSet::isSubsetOf` on `other`'s buffer: every
access to `other` goes through `otherIntSet.contains(data[index])`
(src line 196) for an examined index, i.e. a `containsReads` footprint of
`other`. -/
def isSubsetOfOtherReads (s other : IntSet) : List Nat :=
  (isSubsetOfInvokingReads s other).flatMap
    (fun index => containsReads other (s.data.getD index 0))

/-- Read footprint of `operator==` on `is1`'s buffer (src lines 310-312):
`isEmpty` reads no storage; the two subset tests read `is1`'s buffer
through `is1.isSubsetOf(is2)`'s own loop and through `is2.isSubsetOf(is1)`'s
calls to `contains`.  Short-circuit evaluation may skip some of these
reads, so the footprint is an upper bound on what is read. -/
def eqReadsFst (is1 is2 : IntSet) : List Nat :=
  isSubsetOfInvokingReads is1 is2 ++ isSubsetOfOtherReads is2 is1

/-- Read footprint of `operator==` on `is2`'s buffer (upper bound, as for
`eqReadsFst`). -/
def eqReadsSnd (is1 is2 : IntSet) : List Nat :=
  isSubsetOfOtherReads is1 is2 ++ isSubsetOfInvokingReads is2 is1

/-- Read footprint of `IntSet::remove` on `data` (src lines 291-296): the
`contains` scan, then (only when the value is present) the outer re-scan
`data[index]` up to the first match `k`, and the shift loop's reads
`data[index2 + 1]` for `index2` in `[k, used - 1)`. -/
def removeReads (s : IntSet) (anInt : Int) : List Nat :=
  containsReads s anInt ++
    (match firstIdxOf s anInt with
     | some k => List.range (k + 1) ++ List.range' (k + 1) (s.used - 1 - k)
     | none => [])

/-- Read footprint of `IntSet::operator=` on `rhs.data` (src lines
143-145): the copy loop reads `index < rhs.used`; the invoking set's old
buffer is only deallocated, never read. -/
def assignReads (rhs : IntSet) : List Nat := List.range rhs.used

/-- Read footprint of `IntSet::DumpData` on `data` (src lines 205-210):
`data[0]` and then `data[i]` for `1 <= i < used`, nothing when empty. -/
def dumpDataReads (s : IntSet) : List Nat :=
  if 0 < s.used then List.range s.used else []

/-- Read footprint of `IntSet::add` on the invoking buffer (src lines
271-278): the `contains` scan; on the growth path `resize`'s copy loop
rereads `data[index]` for `index < used`; `data[used] = anInt` is a write,
not a read. -/
def addReads (s : IntSet) (anInt : Int) : List Nat :=
  containsReads s anInt ++
    (if contains s anInt then []
     else if s.capacity ≤ s.used then List.range s.used else [])

/-- Read footprint of `IntSet::unionWith`'s loop on `other`'s buffer (src
lines 222-224): `otherIntSet.data[index]` for `index < otherIntSet.size()`.
The loop's remaining accesses go to the freshly built accumulator through
`contains`/`add`, whose footprints are bounded by the accumulator's own
count; the initial `(*this)` copy is a copy construction, accounted by
`copyCtorReads`. -/
def unionWithOtherReads (other : IntSet) : List Nat := List.range other.used

/-- Read footprint of `IntSet::subtract`'s loop on `other`'s buffer (src
lines 253-255); accumulator accesses go through `contains`/`remove`, and
the initial copy is accounted by `copyCtorReads`, as for
`unionWithOtherReads`. -/
def subtractOtherReads (other : IntSet) : List Nat := List.range other.used

/-- Read footprint of `IntSet::intersect`'s loop on `other`'s buffer:
every access to `other` goes through `otherIntSet.contains(data[index])`
(src line 238), a `containsReads` footprint of `other` — in contrast to
the loop's reads of the INVOKING buffer (`intersectInvokingReads`). -/
def intersectOtherReads (s other : IntSet) : List Nat :=
  (intersectInvokingReads other).flatMap
    (fun index => containsReads other (s.data.getD index 0))

/-- Observable view of an `IntSet`: valid elements, count, capacity. -/
def view (s : IntSet) : List Int × Nat × Nat := (s.elems, s.used, s.capacity)

/-- Stated from the claim's words (C3), for comparison with `add`: a
present value changes nothing and reports `false`; an absent value is
placed at position `count`, `count` increments, and the capacity grows to
`floor(3 * capacity / 2) + 1` exactly when `count` equalled `capacity`. -/
def addSpecView (s : IntSet) (anInt : Int) : (List Int × Nat × Nat) × Bool :=
  if anInt ∈ s.elems then ((s.elems, s.used, s.capacity), false)
  else ((s.elems ++ [anInt], s.used + 1,
         if s.used = s.capacity then 3 * s.capacity / 2 + 1 else s.capacity), true)

/-- Stated from the claim's words (C7), for comparison with `remove`: an
absent value changes nothing and reports `false`; a present value is
deleted at its (first) position, the later valid elements shift one place
left in order, and `count` decrements. -/
def removeSpecView (s : IntSet) (anInt : Int) : (List Int × Nat × Nat) × Bool :=
  if anInt ∈ s.elems then ((s.elems.erase anInt, s.used - 1, s.capacity), true)
  else ((s.elems, s.used, s.capacity), false)

/-- States reachable by sequences of the public operations (and the private
`resize`, which the claim C8 also lists), starting from construction, for a
fixed `DEFAULT_CAPACITY` value `DC`.  Operations whose C++ execution would
access storage out of bounds return `none` and produce no state. -/
inductive Reachable (DC : Nat) : IntSet → Prop where
  | create (initial_capacity : Int) : Reachable DC (mkIntSet DC initial_capacity)
  | copy {s : IntSet} : Reachable DC s → Reachable DC (copyCtor s)
  | assignOp {s : IntSet} : Reachable DC s → Reachable DC (assign s)
  | addOp {s t : IntSet} {x : Int} {b : Bool} :
      Reachable DC s → add DC s x = some (t, b) → Reachable DC t
  | removeOp {s : IntSet} {x : Int} :
      Reachable DC s → Reachable DC (remove s x).1
  | resetOp {s : IntSet} : Reachable DC s → Reachable DC (reset s)
  | resizeOp {s t : IntSet} {r : Int} :
      Reachable DC s → resize DC s r = some t → Reachable DC t
  | unionOp {s o t : IntSet} :
      Reachable DC s → Reachable DC o → unionWith DC s o = some t → Reachable DC t
  | interOp {s o t : IntSet} :
      Reachable DC s → Reachable DC o → intersect s o = some t → Reachable DC t
  | subtractOp {s o : IntSet} :
      Reachable DC s → Reachable DC o → Reachable DC (subtract s o)

/-- The invariant of claim C8: distinct valid elements, `capacity >= count`
and `capacity >= 1`. -/
def Inv (s : IntSet) : Prop :=
  s.elems.Nodup ∧ s.used ≤ s.capacity ∧ 1 ≤ s.capacity

instance (s : IntSet) : Decidable (Inv s) := by
  unfold Inv; infer_instance

/-! ### Basic lemmas about the valid region and `contains` -/

lemma copyCtor_eq (s : IntSet) : copyCtor s = s := rfl

lemma elems_length (s : IntSet) (h : Wf s) : s.elems.length = s.used := by
  simp only [IntSet.elems, List.length_take]
  exact Nat.min_eq_left h

lemma elems_getElem? (s : IntSet) {i : Nat} (h : i < s.used) :
    s.elems[i]? = s.data[i]? := by
  simp [IntSet.elems, List.getElem?_take_of_lt h]

lemma getD_eq_of_lt {l : List Int} {i : Nat} (h : i < l.length) :
    l.getD i 0 = l[i] := by
  simp [List.getElem?_eq_getElem h]

lemma contains_iff (s : IntSet) (x : Int) :
    contains s x = true ↔ ∃ i, i < s.used ∧ s.data.getD i 0 = x := by
  simp [contains, List.any_eq_true, List.mem_range]

lemma mem_elems_iff (s : IntSet) (x : Int) (h : Wf s) :
    x ∈ s.elems ↔ contains s x = true := by
  rw [contains_iff, List.mem_iff_getElem?]
  constructor
  · rintro ⟨i, hi⟩
    have hlt : i < s.elems.length := by
      rcases List.getElem?_eq_some.mp hi with ⟨hl, _⟩
      exact hl
    rw [elems_length s h] at hlt
    refine ⟨i, hlt, ?_⟩
    rw [elems_getElem? s hlt] at hi
    simp [hi]
  · rintro ⟨i, hlt, hx⟩
    have hl : i < s.data.length := Nat.lt_of_lt_of_le hlt h
    refine ⟨i, ?_⟩
    rw [elems_getElem? s hlt, List.getElem?_eq_getElem hl]
    rw [getD_eq_of_lt hl] at hx
    simp [hx]

lemma contains_false_iff (s : IntSet) (x : Int) (h : Wf s) :
    contains s x = false ↔ x ∉ s.elems := by
  rw [← Bool.not_eq_true, not_iff_not]
  exact (mem_elems_iff s x h).symm

/-! ### Characterization of `remove` -/

lemma take_append_exact {α : Type} (A B C : List α) (n : Nat)
    (hA : A.length ≤ n) (hB : B.length = n - A.length) :
    (A ++ B ++ C).take n = A ++ B := by
  rw [List.append_assoc, List.take_append_eq_append_take,
      List.take_of_length_le hA, List.take_append_eq_append_take,
      List.take_of_length_le (Nat.le_of_eq hB)]
  have h0 : n - A.length - B.length = 0 := by omega
  rw [h0]
  simp

lemma firstIdxOf_spec (s : IntSet) (x : Int) {k : Nat}
    (h : firstIdxOf s x = some k) :
    k < s.used ∧ s.data.getD k 0 = x ∧ ∀ j, j < k → s.data.getD j 0 ≠ x := by
  unfold firstIdxOf at h
  have hmem : k ∈ List.range s.used := List.mem_of_find?_eq_some h
  have hk : k < s.used := List.mem_range.mp hmem
  refine ⟨hk, by have hp := List.find?_some h; simpa using hp, ?_⟩
  rw [List.find?_eq_some] at h
  obtain ⟨-, as, bs, hsplit, hprev⟩ := h
  have hlen : as.length + (k :: bs).length = s.used := by
    have := congrArg List.length hsplit
    simpa using this.symm
  have haslen : as.length = k := by
    have h1 : as.length < s.used := by
      simp at hlen
      omega
    have h2 : (List.range s.used)[as.length]? = some k := by
      rw [hsplit, List.getElem?_append_right (Nat.le_refl as.length)]
      simp
    rw [List.getElem?_range h1] at h2
    exact Option.some_inj.mp h2
  intro j hj hx
  have hj' : j < as.length := by omega
  have hja : (List.range s.used)[j]? = as[j]? := by
    rw [hsplit]
    exact List.getElem?_append_left hj'
  rw [List.getElem?_range (by omega)] at hja
  have hmemj : (j : Nat) ∈ as := List.getElem?_mem hja.symm
  have hcontra := hprev j hmemj
  simp only [List.getD_eq_getElem?_getD] at hx
  simp [hx] at hcontra

lemma firstIdxOf_isSome (s : IntSet) (x : Int) (h : contains s x = true) :
    ∃ k, firstIdxOf s x = some k := by
  rcases (contains_iff s x).mp h with ⟨i, hi, hx⟩
  have : (firstIdxOf s x).isSome := by
    unfold firstIdxOf
    rw [List.find?_isSome]
    exact ⟨i, List.mem_range.mpr hi, by rw [hx]; simp⟩
  rcases Option.isSome_iff_exists.mp this with ⟨k, hk⟩
  exact ⟨k, hk⟩

lemma remove_of_not_contains (s : IntSet) (x : Int) (h : contains s x = false) :
    remove s x = (s, false) := by
  unfold remove
  rw [h]
  simp

lemma remove_eq_of_firstIdxOf (s : IntSet) (x : Int) {k : Nat}
    (h : contains s x = true) (hk : firstIdxOf s x = some k) :
    remove s x =
      ({ data := s.data.take k
                  ++ (s.data.drop (k + 1)).take (s.used - 1 - k)
                  ++ s.data.drop (s.used - 1)
         used := s.used - 1 }, true) := by
  unfold remove
  rw [h, hk]
  simp

lemma remove_data_length (s : IntSet) (x : Int) (hWf : Wf s) :
    (remove s x).1.data.length = s.data.length := by
  cases hc : contains s x with
  | false => rw [remove_of_not_contains s x hc]
  | true =>
      obtain ⟨k, hk⟩ := firstIdxOf_isSome s x hc
      obtain ⟨hklt, -, -⟩ := firstIdxOf_spec s x hk
      rw [remove_eq_of_firstIdxOf s x hc hk]
      simp only [List.length_append, List.length_take, List.length_drop]
      have := hWf
      unfold Wf at this
      omega

lemma remove_used (s : IntSet) (x : Int) :
    (remove s x).1.used = if contains s x = true then s.used - 1 else s.used := by
  cases hc : contains s x with
  | false => rw [remove_of_not_contains s x hc]; simp
  | true =>
      obtain ⟨k, hk⟩ := firstIdxOf_isSome s x hc
      rw [remove_eq_of_firstIdxOf s x hc hk]
      simp

lemma remove_snd (s : IntSet) (x : Int) : (remove s x).2 = contains s x := by
  cases hc : contains s x with
  | false => rw [remove_of_not_contains s x hc]
  | true =>
      obtain ⟨k, hk⟩ := firstIdxOf_isSome s x hc
      rw [remove_eq_of_firstIdxOf s x hc hk]

lemma remove_elems (s : IntSet) (x : Int) (hWf : Wf s) :
    (remove s x).1.elems = s.elems.erase x := by
  cases hc : contains s x with
  | false =>
      rw [remove_of_not_contains s x hc,
          List.erase_of_not_mem ((contains_false_iff s x hWf).mp hc)]
  | true =>
      obtain ⟨k, hk⟩ := firstIdxOf_isSome s x hc
      obtain ⟨hklt, hkx, hkfirst⟩ := firstIdxOf_spec s x hk
      have hWf' : s.used ≤ s.data.length := hWf
      have hkd : k < s.data.length := Nat.lt_of_lt_of_le hklt hWf'
      -- the valid region decomposes around the first occurrence of x
      have hEsplit : s.elems = s.elems.take k ++ x :: s.elems.drop (k + 1) := by
        have hkE : k < s.elems.length := by rw [elems_length s hWf]; exact hklt
        have hd : s.elems.drop k = s.elems.get ⟨k, hkE⟩ :: s.elems.drop (k + 1) :=
          List.drop_eq_getElem_cons hkE
        have hEx : s.elems.get ⟨k, hkE⟩ = x := by
          have h1 : s.elems[k]? = s.data[k]? := elems_getElem? s hklt
          rw [List.getElem?_eq_getElem hkE, List.getElem?_eq_getElem hkd] at h1
          have h2 : s.data.getD k 0 = x := hkx
          rw [getD_eq_of_lt hkd] at h2
          exact (Option.some_inj.mp h1).trans h2
        rw [hEx] at hd
        rw [← hd, List.take_append_drop]
      have hxnot : x ∉ s.elems.take k := by
        intro hmem
        rcases List.mem_iff_getElem?.mp hmem with ⟨j, hj⟩
        have hjk : j < k := by
          rcases List.getElem?_eq_some.mp hj with ⟨hjlen, -⟩
          simp only [List.length_take] at hjlen
          omega
        have hju : j < s.used := by omega
        rw [List.getElem?_take_of_lt hjk, elems_getElem? s hju] at hj
        exact hkfirst j hjk (by simp [hj])
      -- right-hand side: erase removes exactly the element at position k
      have hrhs : s.elems.erase x = s.elems.take k ++ s.elems.drop (k + 1) := by
        conv_lhs => rw [hEsplit]
        rw [List.erase_append_right _ hxnot, List.erase_cons_head]
      -- both sides are the same take/drop surgery on the raw buffer
      have hA : s.elems.take k = s.data.take k := by
        show (s.data.take s.used).take k = s.data.take k
        rw [List.take_take]
        congr 1
        omega
      have hB : s.elems.drop (k + 1)
          = (s.data.drop (k + 1)).take (s.used - 1 - k) := by
        show (s.data.take s.used).drop (k + 1) = _
        rw [List.drop_take]
        congr 1
        omega
      have hlenA : (s.data.take k).length = k := by
        simp only [List.length_take]
        omega
      have hlenB : ((s.data.drop (k + 1)).take (s.used - 1 - k)).length
          = s.used - 1 - k := by
        simp only [List.length_take, List.length_drop]
        omega
      rw [remove_eq_of_firstIdxOf s x hc hk, hrhs, hA, hB]
      -- left-hand side: the shifted buffer, truncated to used - 1
      show (s.data.take k
             ++ (s.data.drop (k + 1)).take (s.used - 1 - k)
             ++ s.data.drop (s.used - 1)).take (s.used - 1) = _
      exact take_append_exact _ _ _ _ (by rw [hlenA]; omega)
        (by rw [hlenB, hlenA])

/-! ### Characterization of `resize` and `add` -/

lemma resize_eq (DC : Nat) (s : IntSet) (r : Int)
    (hcap : s.used ≤ resolveCapacity DC s.used r) (hWf : Wf s) :
    resize DC s r = some
      { data := s.data.take s.used
                 ++ List.replicate (resolveCapacity DC s.used r - s.used) 0
        used := s.used } := by
  unfold resize
  exact if_pos ⟨hcap, hWf⟩

lemma resize_view (DC : Nat) (s : IntSet) (r : Int) {t : IntSet}
    (hWf : Wf s) (ht : resize DC s r = some t) :
    t.elems = s.elems ∧ t.used = s.used
      ∧ t.capacity = resolveCapacity DC s.used r := by
  unfold resize at ht
  by_cases hcap : s.used ≤ resolveCapacity DC s.used r ∧ s.used ≤ s.data.length
  · rw [if_pos hcap] at ht
    obtain rfl : _ = t := Option.some_inj.mp ht
    have hE : (s.data.take s.used).length = s.used := by
      simp only [List.length_take]
      exact Nat.min_eq_left hWf
    refine ⟨?_, rfl, ?_⟩
    · show (s.data.take s.used
              ++ List.replicate (resolveCapacity DC s.used r - s.used) 0).take s.used
          = s.elems
      exact List.take_left' hE
    · show (s.data.take s.used
              ++ List.replicate (resolveCapacity DC s.used r - s.used) 0).length
          = _
      simp only [List.length_append, List.length_replicate, hE]
      omega
  · rw [if_neg hcap] at ht
    cases ht

lemma take_set_last {l : List Int} {n : Nat} (a : Int) (h : n < l.length) :
    (l.set n a).take (n + 1) = l.take n ++ [a] := by
  apply List.ext_getElem?
  intro i
  rcases Nat.lt_trichotomy i n with hlt | rfl | hgt
  · rw [List.getElem?_take_of_lt (by omega),
        List.getElem?_set_ne (by omega),
        List.getElem?_append_left (by simp; omega),
        List.getElem?_take_of_lt hlt]
  · rw [List.getElem?_take_of_lt (by omega), List.getElem?_set_self h,
        List.getElem?_append_right (by simp)]
    have h0 : i - (List.take i l).length = 0 := by
      simp only [List.length_take]
      omega
    rw [h0]
    rfl
  · rw [List.getElem?_eq_none (by simp; omega),
        List.getElem?_eq_none (by simp; omega)]

lemma add_eq_of_contains (DC : Nat) (s : IntSet) (x : Int)
    (h : contains s x = true) :
    add DC s x = some (s, false) := by
  unfold add
  rw [h]
  simp

lemma add_of_not_contains (DC : Nat) (s : IntSet) (x : Int)
    (h : contains s x = false) (hWf : Wf s) :
    ∃ t, add DC s x = some (t, true)
      ∧ t.elems = s.elems ++ [x]
      ∧ t.used = s.used + 1
      ∧ t.capacity = (if s.used = s.capacity then growCap s.capacity
                      else s.capacity) := by
  by_cases hfull : s.data.length ≤ s.used
  · -- used == capacity: grow first
    have hueq : s.used = s.data.length := Nat.le_antisymm hWf hfull
    have hgrow : resolveCapacity DC s.used ((growCap s.capacity : Nat) : Int)
        = growCap s.capacity := by
      unfold resolveCapacity growCap IntSet.capacity
      rw [if_neg (by omega), if_neg (by push_cast; omega)]
      exact Int.toNat_ofNat _
    have hr := resize_eq DC s ((growCap s.capacity : Nat) : Int)
      (by rw [hgrow]; unfold growCap IntSet.capacity; omega) hWf
    rw [hgrow] at hr
    have hE : (s.data.take s.used).length = s.used := by
      simp only [List.length_take]
      exact Nat.min_eq_left hWf
    have hglen : (s.data.take s.used
        ++ List.replicate (growCap s.capacity - s.used) 0).length
        = growCap s.capacity := by
      simp only [List.length_append, List.length_replicate, hE]
      unfold growCap IntSet.capacity
      omega
    refine ⟨{ data := (s.data.take s.used
                ++ List.replicate (growCap s.capacity - s.used) 0).set s.used x
              used := s.used + 1 }, ?_, ?_, rfl, ?_⟩
    · unfold add
      rw [h]
      simp only [Bool.false_eq_true, if_false]
      rw [if_pos (by unfold IntSet.capacity; omega), hr]
      simp only [Option.some.injEq]
      rw [if_pos (by rw [hglen]; unfold growCap IntSet.capacity; omega)]
    · show ((s.data.take s.used
              ++ List.replicate (growCap s.capacity - s.used) 0).set s.used x).take
            (s.used + 1) = _
      rw [take_set_last x (by rw [hglen]; unfold growCap IntSet.capacity; omega)]
      congr 1
      exact List.take_left' hE
    · show ((s.data.take s.used
              ++ List.replicate (growCap s.capacity - s.used) 0).set s.used x).length
          = _
      rw [List.length_set, hglen, if_pos (by unfold IntSet.capacity; omega)]
  · -- room left: write in place
    have hlt : s.used < s.data.length := by omega
    refine ⟨{ data := s.data.set s.used x, used := s.used + 1 }, ?_, ?_, rfl, ?_⟩
    · unfold add
      rw [h]
      simp only [Bool.false_eq_true, if_false]
      rw [if_neg (by unfold IntSet.capacity; omega)]
      simp only [Option.some.injEq]
      rw [if_pos hlt]
    · show (s.data.set s.used x).take (s.used + 1) = _
      rw [take_set_last x hlt]
      rfl
    · show (s.data.set s.used x).length = _
      rw [List.length_set, if_neg (by unfold IntSet.capacity; omega)]
      rfl

/-! ### Preservation of the class invariant -/

lemma Inv.wf {s : IntSet} (h : Inv s) : Wf s := h.2.1

lemma inv_mk (DC : Nat) (hDC : 0 < DC) (hint : Int) : Inv (mkIntSet DC hint) := by
  unfold Inv mkIntSet IntSet.elems IntSet.capacity
  refine ⟨by simp, by simp, ?_⟩
  simp only [List.length_replicate]
  by_cases hh : hint ≤ 0
  · rw [if_pos hh]; exact hDC
  · rw [if_neg hh]; omega

lemma inv_assign {s : IntSet} (h : Inv s) : Inv (assign s) := by
  obtain ⟨hnd, hcnt, hcap⟩ := h
  unfold IntSet.capacity at hcnt hcap
  have hE : (s.data.take s.used).length = s.used := by
    simp only [List.length_take]
    omega
  have helems : (assign s).elems = s.elems := by
    show (s.data.take s.used ++ _).take s.used = s.elems
    exact List.take_left' hE
  have hlen : (assign s).capacity = s.capacity := by
    unfold assign IntSet.capacity
    simp only [List.length_append, List.length_replicate]
    omega
  refine ⟨helems ▸ hnd, ?_, ?_⟩
  · show _ ≤ (assign s).capacity
    rw [hlen]
    exact hcnt
  · show 1 ≤ (assign s).capacity
    rw [hlen]
    exact hcap

lemma inv_reset {s : IntSet} (h : Inv s) : Inv (reset s) := by
  obtain ⟨-, -, hcap⟩ := h
  exact ⟨by simp [reset, IntSet.elems], Nat.zero_le _, hcap⟩

lemma inv_resize {DC : Nat} {s t : IntSet} {r : Int} (hDC : 0 < DC)
    (h : Inv s) (ht : resize DC s r = some t) : Inv t := by
  obtain ⟨helems, hused, hcap⟩ := resize_view DC s r h.wf ht
  have hguard : s.used ≤ resolveCapacity DC s.used r := by
    unfold resize at ht
    by_cases hg : s.used ≤ resolveCapacity DC s.used r ∧ s.used ≤ s.data.length
    · exact hg.1
    · rw [if_neg hg] at ht; cases ht
  refine ⟨helems ▸ h.1, ?_, ?_⟩
  · rw [hused, hcap]; exact hguard
  · rw [hcap]
    unfold resolveCapacity
    split
    · exact hDC
    · split <;> omega

lemma inv_add {DC : Nat} {s t : IntSet} {x : Int} {b : Bool}
    (h : Inv s) (ht : add DC s x = some (t, b)) : Inv t := by
  cases hc : contains s x with
  | true =>
      rw [add_eq_of_contains DC s x hc] at ht
      obtain ⟨rfl, -⟩ : t = s ∧ b = false := by
        have := Option.some_inj.mp ht
        exact ⟨congrArg Prod.fst this.symm, congrArg Prod.snd this.symm⟩
      exact h
  | false =>
      obtain ⟨t', ht', helems, hused, hcap⟩ := add_of_not_contains DC s x hc h.wf
      rw [ht'] at ht
      obtain rfl : t' = t := congrArg Prod.fst (Option.some_inj.mp ht)
      have hxmem : x ∉ s.elems := (contains_false_iff s x h.wf).mp hc
      refine ⟨?_, ?_, ?_⟩
      · rw [helems]
        simp [List.nodup_append, h.1, hxmem]
      · rw [hused, hcap]
        have h21 := h.2.1
        by_cases he : s.used = s.capacity
        · rw [if_pos he]
          unfold growCap
          omega
        · rw [if_neg he]
          omega
      · rw [hcap]
        have h22 := h.2.2
        by_cases he : s.used = s.capacity
        · rw [if_pos he]
          unfold growCap
          omega
        · rw [if_neg he]
          omega

lemma inv_remove {s : IntSet} (h : Inv s) (x : Int) : Inv (remove s x).1 := by
  have h21 : s.used ≤ s.data.length := h.2.1
  have h22 : 1 ≤ s.data.length := h.2.2
  refine ⟨?_, ?_, ?_⟩
  · rw [remove_elems s x h.wf]
    exact h.1.sublist (List.erase_sublist x s.elems)
  · show _ ≤ (remove s x).1.data.length
    rw [remove_data_length s x h.wf, remove_used s x]
    split <;> omega
  · show 1 ≤ (remove s x).1.data.length
    rw [remove_data_length s x h.wf]
    exact h22

lemma foldl_inv_total (f : IntSet → Nat → IntSet)
    (hf : ∀ acc i, Inv acc → Inv (f acc i)) :
    ∀ (l : List Nat) (acc : IntSet), Inv acc → Inv (l.foldl f acc) := by
  intro l
  induction l with
  | nil => intro acc h; exact h
  | cons i l ih => intro acc h; exact ih (f acc i) (hf acc i h)

lemma foldl_bind_none (f : IntSet → Nat → Option IntSet) :
    ∀ (l : List Nat),
      l.foldl (fun a? i => a?.bind (fun a => f a i)) none = none := by
  intro l
  induction l with
  | nil => rfl
  | cons i l ih => simpa using ih

lemma foldl_inv_opt (f : IntSet → Nat → Option IntSet)
    (hf : ∀ acc i t, Inv acc → f acc i = some t → Inv t) :
    ∀ (l : List Nat) (acc t : IntSet), Inv acc →
      l.foldl (fun a? i => a?.bind (fun a => f a i)) (some acc) = some t →
      Inv t := by
  intro l
  induction l with
  | nil =>
      intro acc t h heq
      obtain rfl : acc = t := Option.some_inj.mp heq
      exact h
  | cons i l ih =>
      intro acc t h heq
      simp only [List.foldl_cons, Option.some_bind] at heq
      cases ha : f acc i with
      | none =>
          rw [ha, foldl_bind_none] at heq
          cases heq
      | some a' =>
          rw [ha] at heq
          exact ih a' t (hf acc i a' h ha) heq

lemma inv_union {DC : Nat} {s o t : IntSet}
    (hs : Inv s) (ht : unionWith DC s o = some t) : Inv t := by
  unfold unionWith at ht
  rw [copyCtor_eq] at ht
  refine foldl_inv_opt
    (fun acc index =>
      if contains acc (o.data.getD index 0) then some acc
      else (add DC acc (o.data.getD index 0)).map Prod.fst)
    ?_ (List.range o.used) s t hs ht
  intro acc i u hacc hstep
  beta_reduce at hstep
  by_cases hc : contains acc (o.data.getD i 0) = true
  · rw [if_pos hc] at hstep
    obtain rfl : acc = u := Option.some_inj.mp hstep
    exact hacc
  · rw [if_neg hc] at hstep
    rcases Option.map_eq_some'.mp hstep with ⟨p, hp, rfl⟩
    exact inv_add hacc (by rw [hp])

lemma inv_inter {s o t : IntSet}
    (hs : Inv s) (ht : intersect s o = some t) : Inv t := by
  unfold intersect at ht
  by_cases hg : o.used ≤ s.data.length
  · rw [if_pos hg] at ht
    rw [copyCtor_eq] at ht
    obtain rfl : _ = t := Option.some_inj.mp ht
    refine foldl_inv_total
      (fun acc index =>
        if contains o (s.data.getD index 0) then acc
        else (remove acc (s.data.getD index 0)).1)
      ?_ (List.range o.used) s hs
    intro acc i hacc
    beta_reduce
    by_cases hc : contains o (s.data.getD i 0) = true
    · rw [if_pos hc]; exact hacc
    · rw [if_neg hc]; exact inv_remove hacc _
  · rw [if_neg hg] at ht
    cases ht

lemma inv_subtract {s o : IntSet} (hs : Inv s) : Inv (subtract s o) := by
  unfold subtract
  rw [copyCtor_eq]
  refine foldl_inv_total
    (fun acc index =>
      if contains acc (o.data.getD index 0)
      then (remove acc (o.data.getD index 0)).1 else acc)
    ?_ (List.range o.used) s hs
  intro acc i hacc
  beta_reduce
  by_cases hc : contains acc (o.data.getD i 0) = true
  · rw [if_pos hc]; exact inv_remove hacc _
  · rw [if_neg hc]; exact hacc

lemma inv_reachable {DC : Nat} {s : IntSet} (hDC : 0 < DC)
    (hr : Reachable DC s) : Inv s := by
  induction hr with
  | create hint => exact inv_mk DC hDC hint
  | copy _ ih => rw [copyCtor_eq]; exact ih
  | assignOp _ ih => exact inv_assign ih
  | addOp _ heq ih => exact inv_add ih heq
  | removeOp _ ih => exact inv_remove ih _
  | resetOp _ ih => exact inv_reset ih
  | resizeOp _ heq ih => exact inv_resize hDC ih heq
  | unionOp _ _ heq ihs _ => exact inv_union ihs heq
  | interOp _ _ heq ihs _ => exact inv_inter ihs heq
  | subtractOp _ _ ihs _ => exact inv_subtract ihs

/-! ### Subset, equality and the self set-algebra identities -/

lemma contains_self_getD (A : IntSet) {i : Nat} (hi : i < A.used) :
    contains A (A.data.getD i 0) = true := by
  rw [contains_iff]
  exact ⟨i, hi, rfl⟩

lemma isSubsetOf_of_empty (a b : IntSet) (h : a.used = 0) :
    isSubsetOf a b = true := by
  unfold isSubsetOf
  rw [if_pos (by simp [h])]

lemma isSubsetOf_refl (A : IntSet) : isSubsetOf A A = true := by
  unfold isSubsetOf
  by_cases h0 : (A.used == 0) = true
  · rw [if_pos h0]
  · rw [if_neg h0]
    rw [List.all_eq_true]
    intro i hi
    exact contains_self_getD A (List.mem_range.mp hi)

lemma intSetEq_eq_subsets (a b : IntSet) :
    intSetEq a b = (isSubsetOf a b && isSubsetOf b a) := by
  unfold intSetEq
  by_cases he : (isEmpty a && isEmpty b) = true
  · rw [if_pos he]
    unfold isEmpty at he
    simp only [Bool.and_eq_true, beq_iff_eq] at he
    rw [isSubsetOf_of_empty a b he.1, isSubsetOf_of_empty b a he.2]
    rfl
  · rw [if_neg he]
    by_cases hs : (isSubsetOf a b && isSubsetOf b a) = true
    · rw [if_pos hs, hs]
    · rw [if_neg hs]
      exact (Bool.eq_false_iff.mpr fun hx => hs hx).symm ▸ rfl

lemma intSetEq_refl (A : IntSet) : intSetEq A A = true := by
  rw [intSetEq_eq_subsets, isSubsetOf_refl]
  rfl

lemma union_self (DC : Nat) (A : IntSet) : unionWith DC A A = some A := by
  unfold unionWith
  rw [copyCtor_eq]
  have haux : ∀ l : List Nat, (∀ i ∈ l, i < A.used) →
      l.foldl
        (fun acc? index =>
          acc?.bind (fun acc =>
            let x := A.data.getD index 0
            if contains acc x then some acc
            else (add DC acc x).map Prod.fst))
        (some A) = some A := by
    intro l
    induction l with
    | nil => intro _; rfl
    | cons j l ih =>
        intro hmem
        simp only [List.foldl_cons, Option.some_bind]
        rw [if_pos (contains_self_getD A (hmem j (List.mem_cons_self j l)))]
        exact ih (fun i hi => hmem i (List.mem_cons_of_mem j hi))
  exact haux (List.range A.used) (fun i hi => List.mem_range.mp hi)

lemma inter_self (A : IntSet) (hWf : Wf A) : intersect A A = some A := by
  unfold intersect
  rw [if_pos (show A.used ≤ A.data.length from hWf), copyCtor_eq]
  have haux : ∀ (l : List Nat) (acc : IntSet), (∀ i ∈ l, i < A.used) →
      l.foldl
        (fun acc index =>
          let x := A.data.getD index 0
          if contains A x then acc else (remove acc x).1)
        acc = acc := by
    intro l
    induction l with
    | nil => intro acc _; rfl
    | cons j l ih =>
        intro acc hmem
        simp only [List.foldl_cons]
        rw [if_pos (contains_self_getD A (hmem j (List.mem_cons_self j l)))]
        exact ih acc (fun i hi => hmem i (List.mem_cons_of_mem j hi))
  rw [haux (List.range A.used) A (fun i hi => List.mem_range.mp hi)]

lemma subtract_self_aux (A : IntSet) (hWf : Wf A) :
    ∀ (m k : Nat) (acc : IntSet), k + m = A.used → Wf acc →
      acc.elems = A.elems.drop k → acc.used = A.used - k →
      ((List.range' k m).foldl
        (fun acc index =>
          let x := A.data.getD index 0
          if contains acc x then (remove acc x).1 else acc)
        acc).used = 0 := by
  intro m
  induction m with
  | zero =>
      intro k acc hk _ _ hused
      simpa [hused] using by omega
  | succ m ih =>
      intro k acc hk hWfacc helems hused
      have hklt : k < A.used := by omega
      have hkE : k < A.elems.length := by
        rw [elems_length A hWf]
        exact hklt
      have hkd : k < A.data.length := Nat.lt_of_lt_of_le hklt hWf
      have hx : A.data.getD k 0 = A.elems.get ⟨k, hkE⟩ := by
        rw [getD_eq_of_lt hkd]
        have h1 : A.elems[k]? = A.data[k]? := elems_getElem? A hklt
        rw [List.getElem?_eq_getElem hkE, List.getElem?_eq_getElem hkd] at h1
        exact (Option.some_inj.mp h1).symm
      have hdropk : A.elems.drop k = A.elems.get ⟨k, hkE⟩ :: A.elems.drop (k + 1) :=
        List.drop_eq_getElem_cons hkE
      have hmem : A.data.getD k 0 ∈ acc.elems := by
        rw [helems, hdropk, hx]
        exact List.mem_cons_self _ _
      have hcont : contains acc (A.data.getD k 0) = true :=
        (mem_elems_iff acc _ hWfacc).mp hmem
      rw [List.range'_succ]
      simp only [List.foldl_cons]
      rw [if_pos hcont]
      refine ih (k + 1) (remove acc (A.data.getD k 0)).1 (by omega) ?_ ?_ ?_
      · show (remove acc _).1.used ≤ (remove acc _).1.data.length
        rw [remove_data_length acc _ hWfacc, remove_used acc _, if_pos hcont]
        have : acc.used ≤ acc.data.length := hWfacc
        omega
      · rw [remove_elems acc _ hWfacc, helems, hdropk, hx,
            List.erase_cons_head]
      · rw [remove_used acc _, if_pos hcont, hused]
        omega

lemma subtract_self (A : IntSet) (hWf : Wf A) :
    isEmpty (subtract A A) = true := by
  unfold subtract isEmpty
  rw [copyCtor_eq, List.range_eq_range']
  rw [subtract_self_aux A hWf A.used 0 A (by omega) hWf (by simp) (by omega)]
  rfl

/-! ### Equality is capacity- and order-independent -/

lemma isSubsetOf_of_forall (a b : IntSet)
    (h : ∀ i, i < a.used → contains b (a.data.getD i 0) = true) :
    isSubsetOf a b = true := by
  unfold isSubsetOf
  by_cases h0 : (a.used == 0) = true
  · rw [if_pos h0]
  · rw [if_neg h0]
    rw [List.all_eq_true]
    intro i hi
    exact h i (List.mem_range.mp hi)

lemma contains_pad (a : IntSet) (junk : List Int) (hWf : Wf a) (x : Int) :
    contains { data := a.data ++ junk, used := a.used } x = contains a x := by
  rw [Bool.eq_iff_iff, contains_iff, contains_iff]
  constructor
  · rintro ⟨i, hi, hx⟩
    refine ⟨i, hi, ?_⟩
    rw [← hx]
    have hil : i < a.data.length := Nat.lt_of_lt_of_le hi hWf
    simp only [List.getD_eq_getElem?_getD]
    rw [List.getElem?_append_left hil]
  · rintro ⟨i, hi, hx⟩
    refine ⟨i, hi, ?_⟩
    rw [← hx]
    have hil : i < a.data.length := Nat.lt_of_lt_of_le hi hWf
    simp only [List.getD_eq_getElem?_getD]
    rw [List.getElem?_append_left hil]

lemma isSubsetOf_pad_left (a b : IntSet) (junk : List Int) (hWf : Wf a) :
    isSubsetOf { data := a.data ++ junk, used := a.used } b = isSubsetOf a b := by
  unfold isSubsetOf
  by_cases h0 : (a.used == 0) = true
  · rw [if_pos h0, if_pos h0]
  · rw [if_neg h0, if_neg h0]
    rw [Bool.eq_iff_iff, List.all_eq_true, List.all_eq_true]
    constructor
    · intro h i hi
      have := h i hi
      have hil : i < a.data.length :=
        Nat.lt_of_lt_of_le (List.mem_range.mp hi) hWf
      simp only [List.getD_eq_getElem?_getD] at this ⊢
      rwa [List.getElem?_append_left hil] at this
    · intro h i hi
      have := h i hi
      have hil : i < a.data.length :=
        Nat.lt_of_lt_of_le (List.mem_range.mp hi) hWf
      simp only [List.getD_eq_getElem?_getD] at this ⊢
      rwa [List.getElem?_append_left hil]

lemma isSubsetOf_pad_right (a b : IntSet) (junk : List Int) (hWf : Wf a) :
    isSubsetOf b { data := a.data ++ junk, used := a.used } = isSubsetOf b a := by
  unfold isSubsetOf
  by_cases h0 : (b.used == 0) = true
  · rw [if_pos h0, if_pos h0]
  · rw [if_neg h0, if_neg h0]
    rw [Bool.eq_iff_iff, List.all_eq_true, List.all_eq_true]
    constructor
    · intro h i hi
      have := h i hi
      rwa [contains_pad a junk hWf] at this
    · intro h i hi
      have := h i hi
      rwa [contains_pad a junk hWf]

lemma intSetEq_pad (a b : IntSet) (junk : List Int) (hWf : Wf a) :
    intSetEq { data := a.data ++ junk, used := a.used } b = intSetEq a b := by
  unfold intSetEq isEmpty
  rw [isSubsetOf_pad_left a b junk hWf, isSubsetOf_pad_right a b junk hWf]

lemma resolveCapacity_pos (DC u : Nat) (r : Int) (hDC : 0 < DC) :
    0 < resolveCapacity DC u r := by
  unfold resolveCapacity
  split
  · exact hDC
  · split <;> omega

lemma isSubsetOf_of_all_bool (a b : IntSet)
    (h : (List.range a.used).all
      (fun index => contains b (a.data.getD index 0)) = true) :
    isSubsetOf a b = true := by
  unfold isSubsetOf
  split
  · rfl
  · exact h

/-! ### Read footprints stay inside the owner's valid region -/

lemma all_lt_of_forall (l : List Nat) (n : Nat) (h : ∀ i ∈ l, i < n) :
    l.all (fun i => decide (i < n)) = true := by
  rw [List.all_eq_true]
  intro i hi
  simpa using h i hi

lemma containsReads_lt (s : IntSet) (x : Int) :
    ∀ i ∈ containsReads s x, i < s.used := by
  unfold containsReads
  cases hk : firstIdxOf s x with
  | none =>
      intro i hi
      exact List.mem_range.mp hi
  | some k =>
      obtain ⟨hklt, -, -⟩ := firstIdxOf_spec s x hk
      intro i hi
      have := List.mem_range.mp hi
      omega

lemma isSubsetOfInvokingReads_lt (s other : IntSet) :
    ∀ i ∈ isSubsetOfInvokingReads s other, i < s.used := by
  unfold isSubsetOfInvokingReads
  cases hk : (List.range s.used).find?
      (fun index => !(contains other (s.data.getD index 0))) with
  | none =>
      intro i hi
      exact List.mem_range.mp hi
  | some k =>
      have hklt : k < s.used :=
        List.mem_range.mp (List.mem_of_find?_eq_some hk)
      intro i hi
      have := List.mem_range.mp hi
      omega

lemma isSubsetOfOtherReads_lt (s other : IntSet) :
    ∀ j ∈ isSubsetOfOtherReads s other, j < other.used := by
  intro j hj
  rcases List.mem_flatMap.mp hj with ⟨i, -, hji⟩
  exact containsReads_lt other _ j hji

lemma removeReads_lt (s : IntSet) (x : Int) :
    ∀ i ∈ removeReads s x, i < s.used := by
  intro i hi
  rcases List.mem_append.mp hi with hi | hi
  · exact containsReads_lt s x i hi
  · revert hi
    cases hk : firstIdxOf s x with
    | none => intro hi; cases hi
    | some k =>
        obtain ⟨hklt, -, -⟩ := firstIdxOf_spec s x hk
        intro hi
        rcases List.mem_append.mp hi with hi | hi
        · have := List.mem_range.mp hi
          omega
        · have := List.mem_range'_1.mp hi
          omega

lemma addReads_lt (s : IntSet) (x : Int) :
    ∀ i ∈ addReads s x, i < s.used := by
  intro i hi
  rcases List.mem_append.mp hi with hi | hi
  · exact containsReads_lt s x i hi
  · revert hi
    split
    · intro hi; cases hi
    · split
      · intro hi; exact List.mem_range.mp hi
      · intro hi; cases hi

lemma intersectOtherReads_lt (s other : IntSet) :
    ∀ j ∈ intersectOtherReads s other, j < other.used := by
  intro j hj
  rcases List.mem_flatMap.mp hj with ⟨i, -, hji⟩
  exact containsReads_lt other _ j hji

/-! ### Claim theorems -/

/-- C1: the spec states that `A.intersect(B)` keeps exactly the values
contained in both sets and that B's count does not restrict which elements
of A are examined.  The code's loop (src line 237) runs
`index < otherIntSet.size()` while reading the invoking set's `data[index]`,
contradicting its own comment "Compare every item of invoking IntSet to
otherIntSet".  With A = {1, 2} (create(2); add 1; add 2) and B = {5}
(create(1); add 5), only `data[0]` is examined: 1 is removed, but 2 is
retained although B does not contain it; the correct intersection is empty. -/
theorem intersect_loop_bound_bug :
    add 1 (mkIntSet 1 2) 1 = some (⟨[1, 0], 1⟩, true)
    ∧ add 1 ⟨[1, 0], 1⟩ 2 = some (⟨[1, 2], 2⟩, true)
    ∧ add 1 (mkIntSet 1 1) 5 = some (⟨[5], 1⟩, true)
    ∧ intersect ⟨[1, 2], 2⟩ ⟨[5], 1⟩ = some ⟨[2, 2], 1⟩
    ∧ IntSet.elems ⟨[2, 2], 1⟩ = [2]
    ∧ contains ⟨[5], 1⟩ 2 = false
    ∧ contains ⟨[1, 2], 2⟩ 2 = true := by
  decide

/-- C2 (counterexample): the claim that no public operation reads backing
storage at or beyond the owner's valid prefix `[0, count)` is false.
`intersect` examines the invoking buffer at index 1 although the invoking
set ⟨[7], 1⟩ has count 1, because the other set's count is 2; and the copy
constructor reads slot 0 of `create(1)`'s buffer although its count is 0. -/
theorem reads_beyond_count_cex :
    (1 ∈ intersectInvokingReads ⟨[1, 2], 2⟩
      ∧ ¬ 1 < (⟨[7], 1⟩ : IntSet).used)
    ∧ (0 ∈ copyCtorReads (mkIntSet 1 1)
      ∧ ¬ 0 < (mkIntSet 1 1).used) := by
  decide

/-- C2 (amended): no public operation reads a backing-storage position at
or beyond the valid prefix `[0, count)` of the set that owns that storage,
with exactly the two exceptions the counterexample forces: copy
construction (also as the initial `(*this)` copy inside
unionWith/intersect/subtract) reads every slot below the source's capacity
— though the valid elements of the copy still equal the source's — and
`intersect`'s loop reads the invoking set's buffer at exactly the indices
below the OTHER set's count, which include the out-of-prefix index `count`
whenever the other count is larger.  In particular `contains`,
`isSubsetOf` (on both operands), `operator==` (on both operands),
`remove`, assignment, `DumpData`, `add`, the `unionWith`/`subtract` loops,
and even `intersect`'s accesses to the other set all stay strictly below
the owning set's count. -/
theorem reads_footprint_amended (s other src is1 is2 rhs : IntSet)
    (x : Int) (h : s.used < other.used) :
    s.used ∈ intersectInvokingReads other
    ∧ intersectInvokingReads other = List.range other.used
    ∧ copyCtorReads src = List.range src.capacity
    ∧ (copyCtor src).elems = src.elems
    ∧ (containsReads s x).all (fun i => decide (i < s.used)) = true
    ∧ (isSubsetOfInvokingReads s other).all (fun i => decide (i < s.used)) = true
    ∧ (isSubsetOfOtherReads s other).all (fun i => decide (i < other.used)) = true
    ∧ (eqReadsFst is1 is2).all (fun i => decide (i < is1.used)) = true
    ∧ (eqReadsSnd is1 is2).all (fun i => decide (i < is2.used)) = true
    ∧ (removeReads s x).all (fun i => decide (i < s.used)) = true
    ∧ (assignReads rhs).all (fun i => decide (i < rhs.used)) = true
    ∧ (dumpDataReads s).all (fun i => decide (i < s.used)) = true
    ∧ (addReads s x).all (fun i => decide (i < s.used)) = true
    ∧ (unionWithOtherReads other).all (fun i => decide (i < other.used)) = true
    ∧ (subtractOtherReads other).all (fun i => decide (i < other.used)) = true
    ∧ (intersectOtherReads s other).all (fun i => decide (i < other.used)) = true := by
  refine ⟨List.mem_range.mpr h, rfl, rfl, rfl,
    all_lt_of_forall _ _ (containsReads_lt s x),
    all_lt_of_forall _ _ (isSubsetOfInvokingReads_lt s other),
    all_lt_of_forall _ _ (isSubsetOfOtherReads_lt s other),
    ?_, ?_,
    all_lt_of_forall _ _ (removeReads_lt s x),
    all_lt_of_forall _ _ (fun i hi => List.mem_range.mp hi),
    ?_,
    all_lt_of_forall _ _ (addReads_lt s x),
    all_lt_of_forall _ _ (fun i hi => List.mem_range.mp hi),
    all_lt_of_forall _ _ (fun i hi => List.mem_range.mp hi),
    all_lt_of_forall _ _ (intersectOtherReads_lt s other)⟩
  · refine all_lt_of_forall _ _ ?_
    intro i hi
    rcases List.mem_append.mp hi with hi | hi
    · exact isSubsetOfInvokingReads_lt is1 is2 i hi
    · exact isSubsetOfOtherReads_lt is2 is1 i hi
  · refine all_lt_of_forall _ _ ?_
    intro i hi
    rcases List.mem_append.mp hi with hi | hi
    · exact isSubsetOfOtherReads_lt is1 is2 i hi
    · exact isSubsetOfInvokingReads_lt is2 is1 i hi
  · refine all_lt_of_forall _ _ ?_
    intro i hi
    unfold dumpDataReads at hi
    revert hi
    split
    · intro hi; exact List.mem_range.mp hi
    · intro hi; cases hi

/-- C2 (amended, witness): the amended read characterization at the
concrete sets of the counterexample, plus fresh operands for the equality
and assignment footprints. -/
theorem reads_footprint_amended_witness :
    (⟨[7], 1⟩ : IntSet).used < (⟨[1, 2], 2⟩ : IntSet).used
    ∧ ((⟨[7], 1⟩ : IntSet).used ∈ intersectInvokingReads ⟨[1, 2], 2⟩
      ∧ intersectInvokingReads ⟨[1, 2], 2⟩
          = List.range (⟨[1, 2], 2⟩ : IntSet).used
      ∧ copyCtorReads (mkIntSet 1 1) = List.range (mkIntSet 1 1).capacity
      ∧ (copyCtor (mkIntSet 1 1)).elems = (mkIntSet 1 1).elems
      ∧ (containsReads ⟨[7], 1⟩ 0).all
          (fun i => decide (i < (⟨[7], 1⟩ : IntSet).used)) = true
      ∧ (isSubsetOfInvokingReads ⟨[7], 1⟩ ⟨[1, 2], 2⟩).all
          (fun i => decide (i < (⟨[7], 1⟩ : IntSet).used)) = true
      ∧ (isSubsetOfOtherReads ⟨[7], 1⟩ ⟨[1, 2], 2⟩).all
          (fun i => decide (i < (⟨[1, 2], 2⟩ : IntSet).used)) = true
      ∧ (eqReadsFst ⟨[3], 1⟩ ⟨[3, 4], 2⟩).all
          (fun i => decide (i < (⟨[3], 1⟩ : IntSet).used)) = true
      ∧ (eqReadsSnd ⟨[3], 1⟩ ⟨[3, 4], 2⟩).all
          (fun i => decide (i < (⟨[3, 4], 2⟩ : IntSet).used)) = true
      ∧ (removeReads ⟨[7], 1⟩ 0).all
          (fun i => decide (i < (⟨[7], 1⟩ : IntSet).used)) = true
      ∧ (assignReads ⟨[8, 9], 2⟩).all
          (fun i => decide (i < (⟨[8, 9], 2⟩ : IntSet).used)) = true
      ∧ (dumpDataReads ⟨[7], 1⟩).all
          (fun i => decide (i < (⟨[7], 1⟩ : IntSet).used)) = true
      ∧ (addReads ⟨[7], 1⟩ 0).all
          (fun i => decide (i < (⟨[7], 1⟩ : IntSet).used)) = true
      ∧ (unionWithOtherReads ⟨[1, 2], 2⟩).all
          (fun i => decide (i < (⟨[1, 2], 2⟩ : IntSet).used)) = true
      ∧ (subtractOtherReads ⟨[1, 2], 2⟩).all
          (fun i => decide (i < (⟨[1, 2], 2⟩ : IntSet).used)) = true
      ∧ (intersectOtherReads ⟨[7], 1⟩ ⟨[1, 2], 2⟩).all
          (fun i => decide (i < (⟨[1, 2], 2⟩ : IntSet).used)) = true) :=
  ⟨by decide,
    reads_footprint_amended ⟨[7], 1⟩ ⟨[1, 2], 2⟩ (mkIntSet 1 1)
      ⟨[3], 1⟩ ⟨[3, 4], 2⟩ ⟨[8, 9], 2⟩ 0 (by decide)⟩

/-- C3: `add` behaves exactly as specified — a contained value is a no-op
returning `false`; otherwise the value lands at position `count`, `count`
increments, the result is `true`, and the capacity grows to
`floor(3 * capacity / 2) + 1` exactly when `count` equalled `capacity`
(the C++ `int(capacity * 1.5)` computes this exactly, since `double`
multiplication by 1.5 is exact below 2^53). -/
theorem add_matches_spec (DC : Nat) (s : IntSet) (x : Int) (hWf : Wf s) :
    (add DC s x).map (fun p => (view p.1, p.2)) = some (addSpecView s x) := by
  cases hc : contains s x with
  | false =>
      obtain ⟨t, ht, he, hu, hcap⟩ := add_of_not_contains DC s x hc hWf
      rw [ht]
      unfold addSpecView view
      rw [if_neg ((contains_false_iff s x hWf).mp hc)]
      simp only [Option.map_some', Option.some.injEq]
      rw [he, hu, hcap]
      unfold growCap
      rfl
  | true =>
      rw [add_eq_of_contains DC s x hc]
      unfold addSpecView view
      rw [if_pos ((mem_elems_iff s x hWf).mpr hc)]
      rfl

/-- C3 (witness): adding 9 to the full one-slot set {7} grows the capacity
to `3 * 1 / 2 + 1 = 2` and appends 9. -/
theorem add_matches_spec_witness :
    Wf ⟨[7], 1⟩
    ∧ (add 1 ⟨[7], 1⟩ 9).map (fun p => (view p.1, p.2))
        = some (addSpecView ⟨[7], 1⟩ 9) :=
  ⟨by decide, add_matches_spec 1 ⟨[7], 1⟩ 9 (by decide)⟩

/-- C4 (counterexample): with `DEFAULT_CAPACITY = 1`, the reachable
two-element set {5, 6} resized with request 0 resolves the capacity to the
default 1, which is below the count 2: the copy loop would write past the
new allocation (undefined behaviour, modelled `none`), so the valid
elements cannot be preserved, contradicting the claim's conjunction. -/
theorem resize_default_fallback_cex :
    add 1 (mkIntSet 1 2) 5 = some (⟨[5, 0], 1⟩, true)
    ∧ add 1 ⟨[5, 0], 1⟩ 6 = some (⟨[5, 6], 2⟩, true)
    ∧ resolveCapacity 1 2 0 = 1
    ∧ (1 : Nat) < 2
    ∧ resize 1 ⟨[5, 6], 2⟩ 0 = none := by
  decide

/-- C4 (amended): `resize` resolves the capacity to the default for
requests `<= 0`, clamps to `count` for positive requests below `count`, and
takes the request otherwise; the resolved capacity is never 0 (for a
positive default); and WHENEVER the resolved capacity can hold the `count`
valid elements they, their order, and `count` are preserved — the
preservation fails only in the corner `request <= 0` with
`count > DEFAULT_CAPACITY`, where the copy overruns the new allocation. -/
theorem resize_policy_amended (DC : Nat) (s : IntSet) (r : Int)
    (hDC : 0 < DC) (hWf : Wf s)
    (hfit : s.used ≤ resolveCapacity DC s.used r) :
    (resize DC s r).map view
      = some (s.elems, s.used, resolveCapacity DC s.used r)
    ∧ 0 < resolveCapacity DC s.used r := by
  refine ⟨?_, resolveCapacity_pos DC s.used r hDC⟩
  have ht := resize_eq DC s r hfit hWf
  obtain ⟨h1, h2, h3⟩ := resize_view DC s r hWf ht
  rw [ht]
  simp only [Option.map_some', Option.some.injEq]
  unfold view
  rw [h1, h2, h3]

/-- C4 (amended, witness): growing {5} from capacity 1 to 3 keeps the
element, the count, and yields the requested capacity. -/
theorem resize_policy_amended_witness :
    (0 < 1 ∧ Wf ⟨[5], 1⟩
      ∧ (⟨[5], 1⟩ : IntSet).used ≤ resolveCapacity 1 (⟨[5], 1⟩ : IntSet).used 3)
    ∧ ((resize 1 ⟨[5], 1⟩ 3).map view
        = some ((⟨[5], 1⟩ : IntSet).elems, (⟨[5], 1⟩ : IntSet).used,
            resolveCapacity 1 (⟨[5], 1⟩ : IntSet).used 3)
      ∧ 0 < resolveCapacity 1 (⟨[5], 1⟩ : IntSet).used 3) :=
  ⟨⟨by decide, by decide, by decide⟩,
    resize_policy_amended 1 ⟨[5], 1⟩ 3 (by decide) (by decide) (by decide)⟩

/-- C5: `operator==` returns true exactly when each operand is a subset of
the other; `isSubsetOf` is vacuously true for an empty invoking set (here:
any `reset` set); and two empty sets always compare equal. -/
theorem eq_iff_mutual_subset (a b : IntSet) :
    intSetEq a b = (isSubsetOf a b && isSubsetOf b a)
    ∧ isSubsetOf (reset a) b = true
    ∧ intSetEq (reset a) (reset b) = true := by
  refine ⟨intSetEq_eq_subsets a b, isSubsetOf_of_empty (reset a) b rfl, ?_⟩
  rw [intSetEq_eq_subsets,
      isSubsetOf_of_empty (reset a) (reset b) rfl,
      isSubsetOf_of_empty (reset b) (reset a) rfl]
  rfl

/-- C6: for every well-formed set A, `A.unionWith(A) == A`,
`A.intersect(A) == A`, and `A.subtract(A).isEmpty()`. -/
theorem self_algebra_identities (DC : Nat) (A : IntSet) (hWf : Wf A) :
    (unionWith DC A A).map (fun u => intSetEq u A) = some true
    ∧ (intersect A A).map (fun v => intSetEq v A) = some true
    ∧ isEmpty (subtract A A) = true := by
  refine ⟨?_, ?_, subtract_self A hWf⟩
  · rw [union_self DC A]
    simp [intSetEq_refl]
  · rw [inter_self A hWf]
    simp [intSetEq_refl]

/-- C6 (witness): the self identities on the concrete set {1, 2}. -/
theorem self_algebra_identities_witness :
    Wf ⟨[1, 2], 2⟩
    ∧ ((unionWith 1 ⟨[1, 2], 2⟩ ⟨[1, 2], 2⟩).map
          (fun u => intSetEq u ⟨[1, 2], 2⟩) = some true
      ∧ (intersect ⟨[1, 2], 2⟩ ⟨[1, 2], 2⟩).map
          (fun v => intSetEq v ⟨[1, 2], 2⟩) = some true
      ∧ isEmpty (subtract ⟨[1, 2], 2⟩ ⟨[1, 2], 2⟩) = true) :=
  ⟨by decide, self_algebra_identities 1 ⟨[1, 2], 2⟩ (by decide)⟩

/-- C7: `remove` of an absent value is a no-op returning false; removing a
present value deletes it at its position, shifts the later valid elements
one place left in order, and decrements the count — so from order [1,2,3],
remove(1) then add(1) yields order [2,3,1] and the diagnostic dump
"2  3  1". -/
theorem remove_shift_and_readd (s : IntSet) (x : Int) (hWf : Wf s) :
    (view (remove s x).1, (remove s x).2) = removeSpecView s x
    ∧ (add 1 (mkIntSet 1 3) 1 = some (⟨[1, 0, 0], 1⟩, true)
      ∧ add 1 ⟨[1, 0, 0], 1⟩ 2 = some (⟨[1, 2, 0], 2⟩, true)
      ∧ add 1 ⟨[1, 2, 0], 2⟩ 3 = some (⟨[1, 2, 3], 3⟩, true)
      ∧ remove ⟨[1, 2, 3], 3⟩ 1 = (⟨[2, 3, 3], 2⟩, true)
      ∧ add 1 ⟨[2, 3, 3], 2⟩ 1 = some (⟨[2, 3, 1], 3⟩, true)
      ∧ dumpData ⟨[2, 3, 1], 3⟩ = "2  3  1") := by
  refine ⟨?_, by decide⟩
  have h4 : (remove s x).1.capacity = s.capacity := by
    unfold IntSet.capacity
    rw [remove_data_length s x hWf]
  cases hc : contains s x with
  | false =>
      rw [remove_of_not_contains s x hc]
      unfold removeSpecView view
      rw [if_neg ((contains_false_iff s x hWf).mp hc)]
  | true =>
      unfold removeSpecView view
      rw [if_pos ((mem_elems_iff s x hWf).mpr hc)]
      rw [remove_elems s x hWf, remove_used s x, remove_snd s x, h4,
          if_pos hc, hc]

/-- C7 (witness): the remove specification at {1, 2, 3} and value 1. -/
theorem remove_shift_and_readd_witness :
    Wf ⟨[1, 2, 3], 3⟩
    ∧ (view (remove ⟨[1, 2, 3], 3⟩ 1).1, (remove ⟨[1, 2, 3], 3⟩ 1).2)
        = removeSpecView ⟨[1, 2, 3], 3⟩ 1 :=
  ⟨by decide, (remove_shift_and_readd ⟨[1, 2, 3], 3⟩ 1 (by decide)).1⟩

/-- C8: every state reachable by construction, copy, assignment, add,
remove, reset, resize and the set-algebra operations (with a positive
default capacity, and along executions free of out-of-bounds accesses) has
pairwise distinct valid elements, `capacity >= count` and `capacity >= 1`. -/
theorem reachable_invariant (DC : Nat) (s : IntSet) (hDC : 0 < DC)
    (hr : Reachable DC s) :
    s.elems.Nodup ∧ s.used ≤ s.capacity ∧ 1 ≤ s.capacity :=
  inv_reachable hDC hr

/-- C8 (witness): the invariant at the freshly constructed `create(5)`. -/
theorem reachable_invariant_witness :
    (0 < 1 ∧ Reachable 1 (mkIntSet 1 5))
    ∧ ((mkIntSet 1 5).elems.Nodup
      ∧ (mkIntSet 1 5).used ≤ (mkIntSet 1 5).capacity
      ∧ 1 ≤ (mkIntSet 1 5).capacity) :=
  ⟨⟨by decide, Reachable.create 5⟩,
    reachable_invariant 1 (mkIntSet 1 5) (by decide) (Reachable.create 5)⟩

/-- C9: construction yields an empty set; a hint `<= 0` falls back to the
fixed default capacity (so `create(-5)` is literally `create(0)`), a
positive hint is taken exactly, and the normalization is silent — the
constructor is total and always delivers a positive capacity. -/
theorem construction_normalizes_hint (DC : Nat) (hint : Int) (hDC : 0 < DC) :
    (mkIntSet DC hint).used = 0
    ∧ (mkIntSet DC hint).capacity = (if hint ≤ 0 then DC else hint.toNat)
    ∧ 0 < (mkIntSet DC hint).capacity
    ∧ mkIntSet DC (-5) = mkIntSet DC 0 := by
  refine ⟨rfl, ?_, ?_, ?_⟩
  · unfold mkIntSet IntSet.capacity
    simp
  · exact (inv_mk DC hDC hint).2.2
  · unfold mkIntSet
    norm_num

/-- C9 (witness): `create(-5)` with default capacity 1. -/
theorem construction_normalizes_hint_witness :
    0 < 1
    ∧ ((mkIntSet 1 (-5)).used = 0
      ∧ (mkIntSet 1 (-5)).capacity = (if (-5 : Int) ≤ 0 then 1 else (-5 : Int).toNat)
      ∧ 0 < (mkIntSet 1 (-5)).capacity
      ∧ mkIntSet 1 (-5) = mkIntSet 1 0) :=
  ⟨by decide, construction_normalizes_hint 1 (-5) (by decide)⟩

/-- C10: equality is independent of capacity and of insertion order — if
every valid element of each set is contained in the other, `operator==`
returns true; and extending a set's allocation with arbitrary junk slots
(changing only its capacity) never changes the verdict of `operator==`. -/
theorem eq_ignores_capacity_and_order (a b : IntSet) (junk : List Int)
    (hWfa : Wf a)
    (hab : (List.range a.used).all
      (fun index => contains b (a.data.getD index 0)) = true)
    (hba : (List.range b.used).all
      (fun index => contains a (b.data.getD index 0)) = true) :
    intSetEq a b = true
    ∧ intSetEq { data := a.data ++ junk, used := a.used } b = intSetEq a b := by
  refine ⟨?_, intSetEq_pad a b junk hWfa⟩
  rw [intSetEq_eq_subsets, isSubsetOf_of_all_bool a b hab,
      isSubsetOf_of_all_bool b a hba]
  rfl

/-- C10 (witness): {1, 2} stored with capacity 3 equals {2, 1} stored with
capacity 2 in the opposite order, and padding the first buffer with a junk
slot leaves the verdict unchanged. -/
theorem eq_ignores_capacity_and_order_witness :
    (Wf ⟨[1, 2, 0], 2⟩
      ∧ (List.range (⟨[1, 2, 0], 2⟩ : IntSet).used).all
          (fun index => contains ⟨[2, 1], 2⟩
            ((⟨[1, 2, 0], 2⟩ : IntSet).data.getD index 0)) = true
      ∧ (List.range (⟨[2, 1], 2⟩ : IntSet).used).all
          (fun index => contains ⟨[1, 2, 0], 2⟩
            ((⟨[2, 1], 2⟩ : IntSet).data.getD index 0)) = true)
    ∧ (intSetEq ⟨[1, 2, 0], 2⟩ ⟨[2, 1], 2⟩ = true
      ∧ intSetEq ⟨[1, 2, 0] ++ [9], 2⟩ ⟨[2, 1], 2⟩
          = intSetEq ⟨[1, 2, 0], 2⟩ ⟨[2, 1], 2⟩) :=
  ⟨⟨by decide, by decide, by decide⟩,
    eq_ignores_capacity_and_order ⟨[1, 2, 0], 2⟩ ⟨[2, 1], 2⟩ [9]
      (by decide) (by decide) (by decide)⟩

end IntSetCpp
